import Mathlib

/-!
Verification of the claim-based e-mail queue processor of the onefinance
repository (`functions/src/handlers/queue.ts`, `functions/src/handlers/sync.ts`,
`functions/src/services/email.ts`).

The Firestore document store is embedded shallowly: a collection is an
association list from document id to document, and the store's atomic
read-modify-write transactions become pure functions on the store value.
Timestamps are integers (milliseconds); `Date.now()` and server timestamps
become explicit parameters.  The AI classification facade is an external
collaborator and enters as a function parameter; a call that throws is an
`Except.error`.
-/

namespace OneFinance

/-- Milliseconds since the epoch, as in JS `Date.now()`. -/
abbrev Millis := Int

/-! ## Constants (from the top of queue.ts and sync.ts) -/

def MAX_TIMEOUT_SECONDS : Int := 540

def TIMEOUT_BUFFER_MS : Int := 30 * 1000

def DEFAULT_BATCH_SIZE : Int := 10

def PROCESSING_LOCK_TIMEOUT_MS : Int := 15 * 60 * 1000

def EXTRA_HOURS_BUFFER : Int := 6

/-! ## Association-list collections -/

/-- First document stored under a key, as Firestore `doc(id).get()`. -/
def findDoc {α : Type} (l : List (String × α)) (k : String) : Option α :=
  match l with
  | [] => none
  | (k1, v) :: rest => if k1 = k then some v else findDoc rest k

/-- `doc(id).update(f)`: rewrite the document(s) stored under `k`. -/
def updateAssoc {α : Type} (l : List (String × α)) (k : String) (f : α → α) :
    List (String × α) :=
  l.map fun p => if p.1 = k then (p.1, f p.2) else p

/-- `doc(id).set(v)`: overwrite-or-create the document stored under `k`. -/
def setDoc {α : Type} (l : List (String × α)) (k : String) (v : α) :
    List (String × α) :=
  (k, v) :: l.filter fun p => p.1 ≠ k

/-- Batched update of every document whose id lies in `ks`. -/
def mapByKeys {α : Type} (l : List (String × α)) (ks : List String)
    (f : String → α → α) : List (String × α) :=
  l.map fun p => if p.1 ∈ ks then (p.1, f p.1 p.2) else p

theorem findDoc_nil {α : Type} (k : String) : findDoc ([] : List (String × α)) k = none := rfl

theorem findDoc_cons {α : Type} (k1 : String) (v : α) (rest : List (String × α)) (k : String) :
    findDoc ((k1, v) :: rest) k = if k1 = k then some v else findDoc rest k := rfl

theorem findDoc_updateAssoc_self {α : Type} (l : List (String × α)) (k : String) (f : α → α) :
    findDoc (updateAssoc l k f) k = (findDoc l k).map f := by
  induction l with
  | nil => rfl
  | cons p rest ih =>
    obtain ⟨k1, v⟩ := p
    simp only [updateAssoc] at ih
    by_cases h : k1 = k
    · subst h
      simp [updateAssoc, findDoc_cons]
    · simp [updateAssoc, findDoc_cons, h]
      exact ih

theorem findDoc_updateAssoc_ne {α : Type} (l : List (String × α)) (k k2 : String)
    (f : α → α) (h : k2 ≠ k) :
    findDoc (updateAssoc l k f) k2 = findDoc l k2 := by
  induction l with
  | nil => rfl
  | cons p rest ih =>
    obtain ⟨k1, v⟩ := p
    simp only [updateAssoc] at ih
    by_cases h1 : k1 = k
    · subst h1
      simp [updateAssoc, findDoc_cons, Ne.symm h]
      exact ih
    · by_cases h2 : k1 = k2
      · simp [updateAssoc, findDoc_cons, h1, h2, h]
      · simp [updateAssoc, findDoc_cons, h1, h2]
        exact ih

theorem findDoc_setDoc_self {α : Type} (l : List (String × α)) (k : String) (v : α) :
    findDoc (setDoc l k v) k = some v := by
  simp [setDoc, findDoc_cons]

theorem findDoc_filter_ne {α : Type} (l : List (String × α)) (k k2 : String) (h : k2 ≠ k) :
    findDoc (l.filter fun p => p.1 ≠ k) k2 = findDoc l k2 := by
  induction l with
  | nil => rfl
  | cons p rest ih =>
    obtain ⟨k1, v⟩ := p
    rw [List.filter_cons]
    by_cases h1 : k1 = k
    · have hcond : ¬(decide ((k1, v).1 ≠ k) = true) := by simp [h1]
      have hne : k1 ≠ k2 := fun he => h (he ▸ h1)
      rw [if_neg hcond, ih, findDoc_cons, if_neg hne]
    · have hcond : decide ((k1, v).1 ≠ k) = true := by simp [h1]
      rw [if_pos hcond, findDoc_cons, findDoc_cons]
      by_cases h2 : k1 = k2
      · rw [if_pos h2, if_pos h2]
      · rw [if_neg h2, if_neg h2]
        exact ih

theorem findDoc_setDoc_ne {α : Type} (l : List (String × α)) (k k2 : String) (v : α)
    (h : k2 ≠ k) :
    findDoc (setDoc l k v) k2 = findDoc l k2 := by
  rw [setDoc, findDoc_cons, if_neg (Ne.symm h)]
  exact findDoc_filter_ne l k k2 h

theorem filter_eq_self_of_findDoc_none {α : Type} (l : List (String × α)) (k : String)
    (h : findDoc l k = none) :
    (l.filter fun p => p.1 ≠ k) = l := by
  induction l with
  | nil => rfl
  | cons p rest ih =>
    obtain ⟨k1, v⟩ := p
    rw [findDoc_cons] at h
    by_cases h1 : k1 = k
    · rw [if_pos h1] at h
      cases h
    · rw [if_neg h1] at h
      have hcond : decide ((k1, v).1 ≠ k) = true := by simp [h1]
      rw [List.filter_cons, if_pos hcond, ih h]

theorem findDoc_mapByKeys_mem {α : Type} (l : List (String × α)) (ks : List String)
    (f : String → α → α) (k : String) (hk : k ∈ ks) :
    findDoc (mapByKeys l ks f) k = (findDoc l k).map (f k) := by
  induction l with
  | nil => rfl
  | cons p rest ih =>
    obtain ⟨k1, v⟩ := p
    simp only [mapByKeys] at ih
    by_cases h1 : k1 = k
    · subst h1
      simp [mapByKeys, findDoc_cons, hk]
    · by_cases h2 : k1 ∈ ks
      · simp [mapByKeys, findDoc_cons, h1, h2]
        exact ih
      · simp [mapByKeys, findDoc_cons, h1, h2]
        exact ih

theorem findDoc_mapByKeys_not_mem {α : Type} (l : List (String × α)) (ks : List String)
    (f : String → α → α) (k : String) (hk : k ∉ ks) :
    findDoc (mapByKeys l ks f) k = findDoc l k := by
  induction l with
  | nil => rfl
  | cons p rest ih =>
    obtain ⟨k1, v⟩ := p
    simp only [mapByKeys] at ih
    by_cases h1 : k1 = k
    · subst h1
      simp [mapByKeys, findDoc_cons, hk]
    · by_cases h2 : k1 ∈ ks
      · simp [mapByKeys, findDoc_cons, h1, h2]
        exact ih
      · simp [mapByKeys, findDoc_cons, h1, h2]
        exact ih

theorem findDoc_of_mem_nodup {α : Type} (l : List (String × α)) (p : String × α)
    (hnd : (l.map Prod.fst).Nodup) (hp : p ∈ l) :
    findDoc l p.1 = some p.2 := by
  induction l with
  | nil => cases hp
  | cons q rest ih =>
    obtain ⟨k1, v⟩ := q
    simp only [List.map_cons, List.nodup_cons] at hnd
    rcases List.mem_cons.mp hp with h | h
    · subst h
      simp [findDoc_cons]
    · have hne : k1 ≠ p.1 := by
        intro he
        exact hnd.1 (he ▸ (List.mem_map.mpr ⟨p, h, rfl⟩))
      rw [findDoc_cons, if_neg hne]
      exact ih hnd.2 h

theorem findDoc_mem {α : Type} (l : List (String × α)) (k : String) (v : α)
    (h : findDoc l k = some v) : (k, v) ∈ l := by
  induction l with
  | nil => cases h
  | cons p rest ih =>
    obtain ⟨k1, v1⟩ := p
    rw [findDoc_cons] at h
    by_cases h1 : k1 = k
    · rw [if_pos h1] at h
      injection h with hv
      subst hv
      subst h1
      exact List.mem_cons_self _ _
    · rw [if_neg h1] at h
      exact List.mem_cons_of_mem _ (ih h)

/-! ## Data model (types/index.ts and the document shapes written by the handlers) -/

/-- `LogEntry` of types/index.ts; the `details` record is flattened to the three
fields the capture path actually writes (`from`, `subject`, `emailDate`). -/
structure LogEntry where
  timestamp : Millis
  event : String
  detailFrom : String
  detailSubject : String
  detailDate : String
deriving Repr, DecidableEq

/-- `EmailDocument`: the message documents of the `emails` collection.
`sender` embeds the source field `from` (a Lean keyword). -/
structure EmailDoc where
  subject : String
  sender : String
  date : String
  body : String
  receivedAt : Millis
  processed : Bool
  processing : Bool
  processingStartedAt : Option Millis
  logs : List LogEntry
deriving Repr, DecidableEq

/-- `EmailHeaders` of types/index.ts (capture input). -/
structure EmailHeaders where
  id : String
  subject : String
  sender : String
  date : String
deriving Repr, DecidableEq

/-- The `transaction` part of a classification response (services/openai.ts). -/
structure ClassifiedTransaction where
  type : String
  amount : Int
  description : String
  date : String
  method : String
deriving Repr, DecidableEq

/-- Classification agent response: `should_track` plus optional fields. -/
structure Classification where
  should_track : Bool
  transaction : Option ClassifiedTransaction
deriving Repr, DecidableEq

/-- Categorization agent response. -/
structure Categorization where
  category : String
  subcategory : String
  confidence : String
deriving Repr, DecidableEq

/-- Time-extraction agent response. `none` embeds JS `null`. -/
structure TimeExtraction where
  transaction_datetime : Option String
deriving Repr, DecidableEq

/-- Combined result of `processTransactionWithAgents` (the three parallel AI calls). -/
structure AgentResult where
  classification : Classification
  categorization : Categorization
  timeExtraction : TimeExtraction
deriving Repr, DecidableEq

/-- Documents of the `transactions` collection, as written by `processEmailDocument`. -/
structure TransactionDoc where
  emailId : String
  emailSubject : String
  classification : Classification
  categorization : Categorization
  timeExtraction : TimeExtraction
  internal_movement : Bool
  internal_movement_checked : Bool
  createdAt : Millis
deriving Repr, DecidableEq

/-- `ProcessJobStatus` of queue.ts. -/
inductive ProcessJobStatus where
  | pending
  | running
  | completed
  | failed
deriving Repr, DecidableEq

/-- Position of a status in the pending → running → terminal progression. -/
def statusRank : ProcessJobStatus → Nat
  | .pending => 0
  | .running => 1
  | .completed => 2
  | .failed => 2

/-- `ProcessJob` document of the `processJobs` collection.  Optional document
fields (and fields written with an `undefined` value or deleted with
`FieldValue.delete()`) are embedded as `Option`. -/
structure ProcessJob where
  status : ProcessJobStatus
  limit : Int
  processed : Nat
  total : Nat
  remaining : Nat
  currentEmail : Option String
  internalMovementsDetected : Nat
  error : Option String
  createdAt : Millis
  startedAt : Option Millis
  completedAt : Option Millis
deriving Repr, DecidableEq

/-- The document store: the three Firestore collections the queue touches. -/
structure Firestore where
  emails : List (String × EmailDoc)
  transactions : List (String × TransactionDoc)
  jobs : List (String × ProcessJob)
deriving Repr, DecidableEq

/-! ## Claim / release (queue.ts `claimEmailForProcessing`, `releaseEmailProcessing`)

`claimEmailForProcessing` runs inside `admin.firestore().runTransaction`; the
transaction body is embedded as one atomic step on the store.  `now` stands
both for `Date.now()` read inside the transaction and for the server timestamp
stamped into `processingStartedAt`. -/

def claimEmailForProcessing (s : Firestore) (emailId : String) (now : Millis) :
    Bool × Firestore :=
  match findDoc s.emails emailId with
  | none => (false, s)
  | some data =>
    let processed := data.processed
    let processing := data.processing
    let lockExpired : Bool :=
      match data.processingStartedAt with
      | some startedAt => processing && decide (now - startedAt > PROCESSING_LOCK_TIMEOUT_MS)
      | none => false
    if processed || (processing && !lockExpired) then
      (false, s)
    else
      (true,
        { s with
            emails := updateAssoc s.emails emailId fun e =>
              { e with processing := true, processingStartedAt := some now } })

def releaseEmailProcessing (s : Firestore) (emailId : String) : Firestore :=
  { s with
      emails := updateAssoc s.emails emailId fun e =>
        { e with processing := false, processingStartedAt := none } }

/-- A fresh, unprocessed, unclaimed message document (used by witnesses). -/
def baseEmail : EmailDoc :=
  { subject := "s", sender := "a", date := "d", body := "b", receivedAt := 0,
    processed := false, processing := false, processingStartedAt := none, logs := [] }

/-- A one-message store with no transactions and no jobs (used by witnesses). -/
def oneEmailStore : Firestore :=
  { emails := [("m1", baseEmail)], transactions := [], jobs := [] }

/-- A claim on an existing, unprocessed message succeeds when the message is
unclaimed or its lock has expired; the claim is re-stamped at `now`. -/
theorem claim_succeeds (s : Firestore) (emailId : String) (e : EmailDoc) (now : Millis)
    (hfind : findDoc s.emails emailId = some e)
    (hproc : e.processed = false)
    (hok : e.processing = false ∨
      ∃ t0, e.processingStartedAt = some t0 ∧ now - t0 > PROCESSING_LOCK_TIMEOUT_MS) :
    claimEmailForProcessing s emailId now =
      (true,
        { s with emails := updateAssoc s.emails emailId fun e =>
            { e with processing := true, processingStartedAt := some now } }) := by
  rcases hok with hclaim | ⟨t0, hstart, hexp⟩
  · simp [claimEmailForProcessing, hfind, hproc, hclaim]
  · simp [claimEmailForProcessing, hfind, hproc, hstart, hexp]

/-- A claim on a message whose lock is held and not yet expired fails and
leaves the store untouched (whatever `processed` is). -/
theorem claim_fails_locked (s : Firestore) (emailId : String) (e : EmailDoc)
    (t0 now : Millis)
    (hfind : findDoc s.emails emailId = some e)
    (hclaiming : e.processing = true)
    (hstart : e.processingStartedAt = some t0)
    (hnotexp : ¬(now - t0 > PROCESSING_LOCK_TIMEOUT_MS)) :
    claimEmailForProcessing s emailId now = (false, s) := by
  simp [claimEmailForProcessing, hfind, hclaiming, hstart, hnotexp]

/-- C1: two concurrent claim attempts on an unprocessed, unclaimed message.
Firestore `runTransaction` gives serializability, so the concurrent pair is
embedded as the two atomic claim steps composed in either order (the statement
is symmetric in `t1`/`t2`, so one composition covers both orders).  The first
attempt returns `true` and stamps `processing = true` with a fresh
`processingStartedAt`; the second returns `false` and leaves the store
untouched.  `t2 - t1 ≤ PROCESSING_LOCK_TIMEOUT_MS` says the attempts are
concurrent (the second does not observe an expired lock). -/
theorem claim_C1_at_most_one_claim (s : Firestore) (emailId : String) (e : EmailDoc)
    (t1 t2 : Millis)
    (hfind : findDoc s.emails emailId = some e)
    (hproc : e.processed = false)
    (hclaim : e.processing = false)
    (hconc : t2 - t1 ≤ PROCESSING_LOCK_TIMEOUT_MS) :
    (claimEmailForProcessing s emailId t1).1 = true ∧
    (∃ e1, findDoc (claimEmailForProcessing s emailId t1).2.emails emailId = some e1 ∧
      e1.processing = true ∧ e1.processingStartedAt = some t1) ∧
    (claimEmailForProcessing (claimEmailForProcessing s emailId t1).2 emailId t2).1 = false ∧
    (claimEmailForProcessing (claimEmailForProcessing s emailId t1).2 emailId t2).2 =
      (claimEmailForProcessing s emailId t1).2 := by
  have hfst := claim_succeeds s emailId e t1 hfind hproc (Or.inl hclaim)
  have hupd : findDoc (claimEmailForProcessing s emailId t1).2.emails emailId =
      some { e with processing := true, processingStartedAt := some t1 } := by
    rw [hfst]
    exact (by
      rw [findDoc_updateAssoc_self, hfind]
      rfl :
      findDoc (updateAssoc s.emails emailId fun e =>
        { e with processing := true, processingStartedAt := some t1 }) emailId =
      some { e with processing := true, processingStartedAt := some t1 })
  have hnotexp : ¬(t2 - t1 > PROCESSING_LOCK_TIMEOUT_MS) := not_lt.mpr hconc
  have hsnd := claim_fails_locked (claimEmailForProcessing s emailId t1).2 emailId
    { e with processing := true, processingStartedAt := some t1 } t1 t2 hupd rfl rfl hnotexp
  exact ⟨by rw [hfst], ⟨_, hupd, rfl, rfl⟩, by rw [hsnd], by rw [hsnd]⟩

/-- Witness for C1 at a concrete store: message `m1`, claims at times 0 and 1. -/
theorem claim_C1_witness :
    (claimEmailForProcessing oneEmailStore "m1" 0).1 = true ∧
    (∃ e1, findDoc (claimEmailForProcessing oneEmailStore "m1" 0).2.emails "m1" = some e1 ∧
      e1.processing = true ∧ e1.processingStartedAt = some 0) ∧
    (claimEmailForProcessing (claimEmailForProcessing oneEmailStore "m1" 0).2 "m1" 1).1 = false ∧
    (claimEmailForProcessing (claimEmailForProcessing oneEmailStore "m1" 0).2 "m1" 1).2 =
      (claimEmailForProcessing oneEmailStore "m1" 0).2 :=
  claim_C1_at_most_one_claim oneEmailStore "m1" baseEmail 0 1 (by decide) rfl rfl (by decide)

/-- C4: stale-claim recovery.  A message with `processed = false`,
`processing = true` and a `processingStartedAt` more than the 15-minute lock
timeout in the past is claimable again (the claim succeeds and re-stamps
`processingStartedAt = now`); if the elapsed time is strictly below the lock
timeout the claim attempt returns `false` and changes nothing. -/
theorem claim_C4_stale_claim_recovery (s : Firestore) (emailId : String) (e : EmailDoc)
    (t0 now : Millis)
    (hfind : findDoc s.emails emailId = some e)
    (hproc : e.processed = false)
    (hclaiming : e.processing = true)
    (hstart : e.processingStartedAt = some t0) :
    (now - t0 > PROCESSING_LOCK_TIMEOUT_MS →
      (claimEmailForProcessing s emailId now).1 = true ∧
      ∃ e1, findDoc (claimEmailForProcessing s emailId now).2.emails emailId = some e1 ∧
        e1.processing = true ∧ e1.processingStartedAt = some now) ∧
    (now - t0 < PROCESSING_LOCK_TIMEOUT_MS →
      (claimEmailForProcessing s emailId now).1 = false ∧
      (claimEmailForProcessing s emailId now).2 = s) := by
  constructor
  · intro hexp
    have hfst := claim_succeeds s emailId e now hfind hproc (Or.inr ⟨t0, hstart, hexp⟩)
    refine ⟨by rw [hfst],
      ⟨{ e with processing := true, processingStartedAt := some now }, ?_, rfl, rfl⟩⟩
    rw [hfst]
    exact (by
      rw [findDoc_updateAssoc_self, hfind]
      rfl :
      findDoc (updateAssoc s.emails emailId fun e =>
        { e with processing := true, processingStartedAt := some now }) emailId =
      some { e with processing := true, processingStartedAt := some now })
  · intro hfresh
    have hnotexp : ¬(now - t0 > PROCESSING_LOCK_TIMEOUT_MS) :=
      not_lt.mpr (le_of_lt hfresh)
    have hres := claim_fails_locked s emailId e t0 now hfind hclaiming hstart hnotexp
    exact ⟨by rw [hres], by rw [hres]⟩

/-- A message whose claim was taken at time 0 (used by the C4 witness). -/
def staleClaimEmail : EmailDoc :=
  { baseEmail with processing := true, processingStartedAt := some 0 }

/-- Witness for C4: lock taken at time 0; a claim at `now` past the timeout
succeeds, a claim inside the window fails. -/
theorem claim_C4_witness :
    ((1000000 : Millis) - 0 > PROCESSING_LOCK_TIMEOUT_MS →
      (claimEmailForProcessing
        { emails := [("m1", staleClaimEmail)], transactions := [], jobs := [] } "m1" 1000000).1 = true ∧
      ∃ e1, findDoc (claimEmailForProcessing
          { emails := [("m1", staleClaimEmail)], transactions := [], jobs := [] }
          "m1" 1000000).2.emails "m1" = some e1 ∧
        e1.processing = true ∧ e1.processingStartedAt = some 1000000) ∧
    ((1000000 : Millis) - 0 < PROCESSING_LOCK_TIMEOUT_MS →
      (claimEmailForProcessing
        { emails := [("m1", staleClaimEmail)], transactions := [], jobs := [] } "m1" 1000000).1 = false ∧
      (claimEmailForProcessing
        { emails := [("m1", staleClaimEmail)], transactions := [], jobs := [] } "m1" 1000000).2 =
        { emails := [("m1", staleClaimEmail)], transactions := [], jobs := [] }) :=
  claim_C4_stale_claim_recovery _ "m1" staleClaimEmail 0 1000000 (by decide) rfl rfl rfl

/-! ## processEmailDocument (queue.ts)

After the agent call succeeds, `processEmailDocument` performs two store
writes in order: create the transaction document, then mark the source
message processed.  The pair is embedded as an explicit write list so that
every intermediate store (any prefix of the writes, e.g. when the function
dies between the two awaits) can be examined. -/

inductive WriteOp where
  | putTransaction (txId : String) (doc : TransactionDoc)
  | markEmailProcessed (emailId : String)
deriving Repr, DecidableEq

def applyWrite (s : Firestore) : WriteOp → Firestore
  | .putTransaction txId doc => { s with transactions := setDoc s.transactions txId doc }
  | .markEmailProcessed emailId =>
      { s with emails := updateAssoc s.emails emailId fun e =>
          { e with processed := true, processing := false, processingStartedAt := none } }

/-- The transaction document written by `processEmailDocument`. -/
def mkTransactionDoc (emailId : String) (emailData : EmailDoc) (r : AgentResult)
    (now : Millis) : TransactionDoc :=
  { emailId := emailId, emailSubject := emailData.subject,
    classification := r.classification, categorization := r.categorization,
    timeExtraction := r.timeExtraction,
    internal_movement := false, internal_movement_checked := false, createdAt := now }

/-- The ordered store writes of `processEmailDocument` (`txId` is the fresh
`uuidv4()`; `emailData` is the query-snapshot data passed by the caller). -/
def processEmailWrites (emailId : String) (emailData : EmailDoc) (txId : String)
    (r : AgentResult) (now : Millis) : List WriteOp :=
  [WriteOp.putTransaction txId (mkTransactionDoc emailId emailData r now),
   WriteOp.markEmailProcessed emailId]

def processEmailDocument (s : Firestore) (emailId : String) (emailData : EmailDoc)
    (txId : String) (r : AgentResult) (now : Millis) : Firestore :=
  (processEmailWrites emailId emailData txId r now).foldl applyWrite s

/-- Every message marked processed is referenced by some transaction record. -/
def processedImpliesTransaction (s : Firestore) : Prop :=
  ∀ id e, findDoc s.emails id = some e → e.processed = true →
    ∃ txId t, findDoc s.transactions txId = some t ∧ t.emailId = id

theorem inv_putTransaction (s : Firestore) (txId : String) (doc : TransactionDoc)
    (hinv : processedImpliesTransaction s)
    (hfresh : findDoc s.transactions txId = none) :
    processedImpliesTransaction { s with transactions := setDoc s.transactions txId doc } := by
  intro id e hfinde hproc
  obtain ⟨txId0, t, hft, hmail⟩ := hinv id e hfinde hproc
  by_cases h : txId0 = txId
  · subst h
    rw [hfresh] at hft
    cases hft
  · refine ⟨txId0, t, ?_, hmail⟩
    show findDoc (setDoc s.transactions txId doc) txId0 = some t
    rw [findDoc_setDoc_ne _ _ _ _ h]
    exact hft

theorem inv_markProcessed (s : Firestore) (emailId : String)
    (hinv : processedImpliesTransaction s)
    (htx : ∃ txId t, findDoc s.transactions txId = some t ∧ t.emailId = emailId) :
    processedImpliesTransaction
      { s with emails := updateAssoc s.emails emailId fun e =>
          { e with processed := true, processing := false, processingStartedAt := none } } := by
  intro id e hfinde hproc
  by_cases h : id = emailId
  · subst h
    exact htx
  · have hs : findDoc s.emails id = some e := by
      have heq := findDoc_updateAssoc_ne s.emails emailId id
        (fun e => { e with processed := true, processing := false, processingStartedAt := none }) h
      rw [← heq]
      exact hfinde
    exact hinv id e hs hproc

/-- C2: mark-processed happens-after the transaction write.  Along every
prefix of the store writes of `processEmailDocument` (so at every point of
its execution, even if it dies between the two writes), a message visible as
`processed = true` is referenced by an existing transaction record — the
message cannot become processed before its transaction exists. -/
theorem claim_C2_processed_after_transaction (s : Firestore) (emailId : String)
    (emailData : EmailDoc) (txId : String) (r : AgentResult) (now : Millis)
    (hinv : processedImpliesTransaction s)
    (hfresh : findDoc s.transactions txId = none) :
    ∀ k, processedImpliesTransaction
      (((processEmailWrites emailId emailData txId r now).take k).foldl applyWrite s) := by
  have inv1 := inv_putTransaction s txId (mkTransactionDoc emailId emailData r now) hinv hfresh
  have htx : ∃ txId0 t,
      findDoc (applyWrite s
        (WriteOp.putTransaction txId (mkTransactionDoc emailId emailData r now))).transactions
        txId0 = some t ∧ t.emailId = emailId := by
    refine ⟨txId, mkTransactionDoc emailId emailData r now, ?_, rfl⟩
    show findDoc (setDoc s.transactions txId (mkTransactionDoc emailId emailData r now)) txId = _
    exact findDoc_setDoc_self _ _ _
  have inv2 := inv_markProcessed _ emailId inv1 htx
  intro k
  match k with
  | 0 => exact hinv
  | 1 => exact inv1
  | (n + 2) =>
    show processedImpliesTransaction ((List.take (n + 2)
      [WriteOp.putTransaction txId (mkTransactionDoc emailId emailData r now),
       WriteOp.markEmailProcessed emailId]).foldl applyWrite s)
    rw [List.take_succ_cons, List.take_succ_cons, List.take_nil]
    exact inv2

/-- The one-message example store satisfies the C2 invariant. -/
theorem oneEmailStore_inv : processedImpliesTransaction oneEmailStore := by
  intro id e hfind hproc
  simp only [oneEmailStore, findDoc_cons, findDoc_nil] at hfind
  by_cases h : "m1" = id
  · rw [if_pos h] at hfind
    injection hfind with he
    rw [← he] at hproc
    simp [baseEmail] at hproc
  · rw [if_neg h] at hfind
    cases hfind

/-- A concrete successful result of the three agents (used by witnesses). -/
def exampleAgentResult : AgentResult :=
  { classification :=
      { should_track := true,
        transaction := some
          { type := "expense", amount := 50000, description := "x", date := "d", method := "card" } },
    categorization := { category := "food", subcategory := "grocery", confidence := "high" },
    timeExtraction := { transaction_datetime := some "2024-01-01T00:00:00-05:00" } }

/-- Witness for C2 at a concrete store, after both writes. -/
theorem claim_C2_witness :
    processedImpliesTransaction
      (((processEmailWrites "m1" baseEmail "t1" exampleAgentResult 7).take 2).foldl
        applyWrite oneEmailStore) :=
  claim_C2_processed_after_transaction oneEmailStore "m1" baseEmail "t1" exampleAgentResult 7
    oneEmailStore_inv rfl 2

/-! ## saveEmail (services/email.ts)

The capture-side upsert runs in a Firestore transaction; `now` stands for the
server timestamp.  `tx.set(..., { merge: true })` with every field present
except (possibly) `processingStartedAt` is embedded by constructing the full
merged document; `FieldValue.arrayUnion` appends the log entry unless an
identical entry is already present. -/

def saveEmail (s : Firestore) (emailData : EmailHeaders) (bodyText : String)
    (now : Millis) : Firestore :=
  let existing := findDoc s.emails emailData.id
  let isNewEmail := existing.isNone
  let logEntry : LogEntry :=
    { timestamp := now,
      event := if isNewEmail then "email_received" else "email_updated",
      detailFrom := emailData.sender, detailSubject := emailData.subject,
      detailDate := emailData.date }
  let emailDoc : EmailDoc :=
    { subject := emailData.subject, sender := emailData.sender, date := emailData.date,
      body := bodyText,
      receivedAt := match existing with | some e => e.receivedAt | none => now,
      processed := match existing with | some e => e.processed | none => false,
      processing := match existing with | some e => e.processing | none => false,
      processingStartedAt := match existing with | some e => e.processingStartedAt | none => none,
      logs := match existing with
        | some e => if logEntry ∈ e.logs then e.logs else e.logs ++ [logEntry]
        | none => [logEntry] }
  { s with emails := setDoc s.emails emailData.id emailDoc }

/-- The log entry `saveEmail` appends on re-capture of an existing message. -/
def updateLogEntry (h : EmailHeaders) (now : Millis) : LogEntry :=
  { timestamp := now, event := "email_updated", detailFrom := h.sender,
    detailSubject := h.subject, detailDate := h.date }

/-- C8: idempotent capture.  Re-submitting an already-stored message id
merges metadata but keeps `processed`, `processing`, `processingStartedAt`
and `receivedAt` exactly as they were, creates no new message document
(the set of stored ids is unchanged), and writes nothing to the
transactions collection. -/
theorem claim_C8_idempotent_capture (s : Firestore) (h : EmailHeaders) (body : String)
    (now : Millis) (e : EmailDoc)
    (hfind : findDoc s.emails h.id = some e) :
    (∃ e1, findDoc (saveEmail s h body now).emails h.id = some e1 ∧
      e1.processed = e.processed ∧ e1.processing = e.processing ∧
      e1.processingStartedAt = e.processingStartedAt ∧
      e1.receivedAt = e.receivedAt) ∧
    (∀ k, (findDoc (saveEmail s h body now).emails k).isSome =
      (findDoc s.emails k).isSome) ∧
    (saveEmail s h body now).transactions = s.transactions := by
  have hmain : findDoc (saveEmail s h body now).emails h.id = some
      { subject := h.subject, sender := h.sender, date := h.date, body := body,
        receivedAt := e.receivedAt, processed := e.processed, processing := e.processing,
        processingStartedAt := e.processingStartedAt,
        logs := if updateLogEntry h now ∈ e.logs then e.logs
          else e.logs ++ [updateLogEntry h now] } := by
    simp only [saveEmail, hfind]
    exact findDoc_setDoc_self _ _ _
  refine ⟨⟨_, hmain, rfl, rfl, rfl, rfl⟩, ?_, rfl⟩
  intro k
  by_cases hk : k = h.id
  · subst hk
    rw [hmain, hfind]
    rfl
  · have hne : findDoc (saveEmail s h body now).emails k = findDoc s.emails k := by
      simp only [saveEmail]
      exact findDoc_setDoc_ne _ _ _ _ hk
    rw [hne]

/-- A stored message that is processed and has a transaction (C8 witness). -/
def processedEmail : EmailDoc :=
  { baseEmail with processed := true }

/-- Witness for C8: re-capture of an already-processed message. -/
theorem claim_C8_witness :
    (∃ e1, findDoc (saveEmail
        { emails := [("m1", processedEmail)], transactions := [], jobs := [] }
        { id := "m1", subject := "s2", sender := "a2", date := "d2" } "b2" 9).emails "m1" =
        some e1 ∧
      e1.processed = processedEmail.processed ∧
      e1.processing = processedEmail.processing ∧
      e1.processingStartedAt = processedEmail.processingStartedAt ∧
      e1.receivedAt = processedEmail.receivedAt) ∧
    (∀ k, (findDoc (saveEmail
        { emails := [("m1", processedEmail)], transactions := [], jobs := [] }
        { id := "m1", subject := "s2", sender := "a2", date := "d2" } "b2" 9).emails k).isSome =
      (findDoc [("m1", processedEmail)] k).isSome) ∧
    (saveEmail { emails := [("m1", processedEmail)], transactions := [], jobs := [] }
      { id := "m1", subject := "s2", sender := "a2", date := "d2" } "b2" 9).transactions = [] :=
  claim_C8_idempotent_capture
    { emails := [("m1", processedEmail)], transactions := [], jobs := [] }
    { id := "m1", subject := "s2", sender := "a2", date := "d2" } "b2" 9 processedEmail
    (by decide)

/-! ## The per-message batch loop of runQueueProcessor (queue.ts)

`agent` embeds `processTransactionWithAgents` (an `Except.error` is a throw
after the retry wrapper gives up); `txIdOf` supplies the fresh `uuidv4()` for
each message; `time i` is the value of `Date.now()` during iteration `i`. -/

structure BatchState where
  store : Firestore
  processedCount : Nat
  timedOut : Bool
deriving Repr, DecidableEq

def runBatchLoop (agent : String → String → Except String AgentResult)
    (txIdOf : String → String) (time : Nat → Millis) (startTime timeoutMs : Millis) :
    List (String × EmailDoc) → Nat → BatchState → BatchState
  | [], _, st => st
  | (emailId, emailData) :: rest, i, st =>
    if time i - startTime ≥ timeoutMs then
      { st with timedOut := true }
    else
      let c := claimEmailForProcessing st.store emailId (time i)
      if c.1 = false then
        runBatchLoop agent txIdOf time startTime timeoutMs rest (i + 1) { st with store := c.2 }
      else
        match agent emailData.subject emailData.body with
        | .error _ =>
          runBatchLoop agent txIdOf time startTime timeoutMs rest (i + 1)
            { st with store := releaseEmailProcessing c.2 emailId }
        | .ok r =>
          runBatchLoop agent txIdOf time startTime timeoutMs rest (i + 1)
            { store := processEmailDocument c.2 emailId emailData (txIdOf emailId) r (time i),
              processedCount := st.processedCount + 1,
              timedOut := st.timedOut }

/-- A claim step either leaves the store unchanged or only re-stamps the
claimed message's claim fields. -/
theorem claim_store_cases (s : Firestore) (emailId : String) (now : Millis) :
    (claimEmailForProcessing s emailId now).2 = s ∨
    (claimEmailForProcessing s emailId now).2 =
      { s with emails := updateAssoc s.emails emailId fun e =>
          { e with processing := true, processingStartedAt := some now } } := by
  unfold claimEmailForProcessing
  cases findDoc s.emails emailId with
  | none => exact Or.inl rfl
  | some data =>
    dsimp only
    split
    · exact Or.inl rfl
    · exact Or.inr rfl

theorem claim_emails_other (s : Firestore) (emailId : String) (now : Millis) (m : String)
    (hm : m ≠ emailId) :
    findDoc (claimEmailForProcessing s emailId now).2.emails m = findDoc s.emails m := by
  rcases claim_store_cases s emailId now with h | h
  · rw [h]
  · rw [h]
    exact findDoc_updateAssoc_ne s.emails emailId m
      (fun e => { e with processing := true, processingStartedAt := some now }) hm

theorem claim_transactions_eq (s : Firestore) (emailId : String) (now : Millis) :
    (claimEmailForProcessing s emailId now).2.transactions = s.transactions := by
  rcases claim_store_cases s emailId now with h | h <;> rw [h]

theorem release_emails_other (s : Firestore) (emailId : String) (m : String)
    (hm : m ≠ emailId) :
    findDoc (releaseEmailProcessing s emailId).emails m = findDoc s.emails m :=
  findDoc_updateAssoc_ne s.emails emailId m
    (fun e => { e with processing := false, processingStartedAt := none }) hm

theorem processEmailDocument_emails_other (s : Firestore) (emailId : String)
    (emailData : EmailDoc) (txId : String) (r : AgentResult) (now : Millis) (m : String)
    (hm : m ≠ emailId) :
    findDoc (processEmailDocument s emailId emailData txId r now).emails m =
      findDoc s.emails m :=
  findDoc_updateAssoc_ne
    (applyWrite s (WriteOp.putTransaction txId (mkTransactionDoc emailId emailData r now))).emails
    emailId m
    (fun e => { e with processed := true, processing := false, processingStartedAt := none }) hm

/-- `processEmailDocument` adds only a transaction referencing its own message:
transactions referencing a different message `m` cannot appear. -/
theorem processEmailDocument_no_foreign_tx (s : Firestore) (emailId : String)
    (emailData : EmailDoc) (txId : String) (r : AgentResult) (now : Millis) (m : String)
    (hm : emailId ≠ m)
    (hP : ∀ k t, findDoc s.transactions k = some t → t.emailId ≠ m) :
    ∀ k t, findDoc (processEmailDocument s emailId emailData txId r now).transactions k =
      some t → t.emailId ≠ m := by
  intro k t hk
  have he : (processEmailDocument s emailId emailData txId r now).transactions =
      setDoc s.transactions txId (mkTransactionDoc emailId emailData r now) := rfl
  rw [he] at hk
  by_cases h : k = txId
  · subst h
    rw [findDoc_setDoc_self] at hk
    injection hk with ht
    rw [← ht]
    exact hm
  · rw [findDoc_setDoc_ne _ _ _ _ h] at hk
    exact hP k t hk

/-- Messages not named in the remaining batch keep their email document
through the loop, and if no stored transaction references them none ever
will (each processed message only writes a transaction referencing itself). -/
theorem runBatchLoop_preserves (agent : String → String → Except String AgentResult)
    (txIdOf : String → String) (time : Nat → Millis) (startTime timeoutMs : Millis)
    (m : String) (docs : List (String × EmailDoc)) :
    ∀ (i : Nat) (st : BatchState), (∀ p ∈ docs, p.1 ≠ m) →
      findDoc (runBatchLoop agent txIdOf time startTime timeoutMs docs i st).store.emails m =
        findDoc st.store.emails m ∧
      ((∀ k t, findDoc st.store.transactions k = some t → t.emailId ≠ m) →
        ∀ k t, findDoc (runBatchLoop agent txIdOf time startTime timeoutMs
          docs i st).store.transactions k = some t → t.emailId ≠ m) := by
  induction docs with
  | nil =>
    intro i st _
    exact ⟨rfl, fun h => h⟩
  | cons p rest ih =>
    obtain ⟨emailId, emailData⟩ := p
    intro i st hdocs
    have hm : emailId ≠ m := hdocs (emailId, emailData) (List.mem_cons_self _ _)
    have hrest : ∀ q ∈ rest, q.1 ≠ m := fun q hq => hdocs q (List.mem_cons_of_mem _ hq)
    simp only [runBatchLoop]
    split
    · exact ⟨rfl, fun h => h⟩
    · by_cases hc : (claimEmailForProcessing st.store emailId (time i)).1 = false
      · rw [if_pos hc]
        obtain ⟨ih1, ih2⟩ := ih (i + 1)
          { st with store := (claimEmailForProcessing st.store emailId (time i)).2 } hrest
        constructor
        · rw [ih1]
          exact claim_emails_other st.store emailId (time i) m (Ne.symm hm)
        · intro hP
          apply ih2
          intro k t hkt
          apply hP k t
          rw [← claim_transactions_eq st.store emailId (time i)]
          exact hkt
      · rw [if_neg hc]
        split
        · obtain ⟨ih1, ih2⟩ := ih (i + 1) { st with store := releaseEmailProcessing (claimEmailForProcessing st.store emailId (time i)).2 emailId } hrest
          constructor
          · rw [ih1]
            have h1 := release_emails_other
              (claimEmailForProcessing st.store emailId (time i)).2 emailId m (Ne.symm hm)
            rw [h1]
            exact claim_emails_other st.store emailId (time i) m (Ne.symm hm)
          · intro hP
            apply ih2
            intro k t hkt
            apply hP k t
            rw [← claim_transactions_eq st.store emailId (time i)]
            exact hkt
        · rename_i r hag
          obtain ⟨ih1, ih2⟩ := ih (i + 1) { store := processEmailDocument (claimEmailForProcessing st.store emailId (time i)).2 emailId emailData (txIdOf emailId) r (time i), processedCount := st.processedCount + 1, timedOut := st.timedOut } hrest
          constructor
          · rw [ih1]
            have h1 := processEmailDocument_emails_other
              (claimEmailForProcessing st.store emailId (time i)).2 emailId emailData
              (txIdOf emailId) r (time i) m (Ne.symm hm)
            rw [h1]
            exact claim_emails_other st.store emailId (time i) m (Ne.symm hm)
          · intro hP
            apply ih2
            apply processEmailDocument_no_foreign_tx _ emailId emailData (txIdOf emailId)
              r (time i) m hm
            intro k t hkt
            apply hP k t
            rw [← claim_transactions_eq st.store emailId (time i)]
            exact hkt

/-- C3: a per-message classification failure is contained.  If the agents
throw for a claimable message, the batch loop releases that message's claim
(`processing = false`, `processingStartedAt` deleted), leaves it
`processed = false`, writes no transaction referencing it, and the whole run
equals the run continued on the remaining messages from the released store —
the batch is not aborted. -/
theorem claim_C3_per_message_failure_contained
    (agent : String → String → Except String AgentResult) (txIdOf : String → String)
    (time : Nat → Millis) (startTime timeoutMs : Millis)
    (emailId : String) (emailData : EmailDoc) (rest : List (String × EmailDoc))
    (i : Nat) (st : BatchState) (e : EmailDoc) (msg : String)
    (hfind : findDoc st.store.emails emailId = some e)
    (hproc : e.processed = false)
    (hclaim : e.processing = false)
    (hnotime : time i - startTime < timeoutMs)
    (hfail : agent emailData.subject emailData.body = Except.error msg)
    (hrest : ∀ p ∈ rest, p.1 ≠ emailId)
    (hnotx : ∀ k t, findDoc st.store.transactions k = some t → t.emailId ≠ emailId) :
    runBatchLoop agent txIdOf time startTime timeoutMs ((emailId, emailData) :: rest) i st =
      runBatchLoop agent txIdOf time startTime timeoutMs rest (i + 1)
        { st with store :=
            releaseEmailProcessing (claimEmailForProcessing st.store emailId (time i)).2 emailId } ∧
    (∃ e1, findDoc (runBatchLoop agent txIdOf time startTime timeoutMs
        ((emailId, emailData) :: rest) i st).store.emails emailId = some e1 ∧
      e1.processed = false ∧ e1.processing = false ∧ e1.processingStartedAt = none) ∧
    (∀ k t, findDoc (runBatchLoop agent txIdOf time startTime timeoutMs
        ((emailId, emailData) :: rest) i st).store.transactions k = some t →
      t.emailId ≠ emailId) := by
  have hsucc := claim_succeeds st.store emailId e (time i) hfind hproc (Or.inl hclaim)
  have hcnot : ¬((claimEmailForProcessing st.store emailId (time i)).1 = false) := by
    rw [hsucc]
    simp
  have hstep : runBatchLoop agent txIdOf time startTime timeoutMs
      ((emailId, emailData) :: rest) i st =
      runBatchLoop agent txIdOf time startTime timeoutMs rest (i + 1)
        { st with store :=
            releaseEmailProcessing (claimEmailForProcessing st.store emailId (time i)).2 emailId } := by
    simp only [runBatchLoop]
    rw [if_neg (not_le.mpr hnotime), if_neg hcnot]
    simp only [hfail]
  have h1 : findDoc (claimEmailForProcessing st.store emailId (time i)).2.emails emailId =
      some { e with processing := true, processingStartedAt := some (time i) } := by
    rw [hsucc]
    exact (by
      rw [findDoc_updateAssoc_self, hfind]
      rfl :
      findDoc (updateAssoc st.store.emails emailId fun e =>
        { e with processing := true, processingStartedAt := some (time i) }) emailId =
      some { e with processing := true, processingStartedAt := some (time i) })
  have hrel : findDoc (releaseEmailProcessing
      (claimEmailForProcessing st.store emailId (time i)).2 emailId).emails emailId =
      some { e with processing := false, processingStartedAt := none } := by
    show findDoc (updateAssoc
      (claimEmailForProcessing st.store emailId (time i)).2.emails emailId fun e =>
        { e with processing := false, processingStartedAt := none }) emailId = _
    rw [findDoc_updateAssoc_self, h1]
    rfl
  obtain ⟨p1, p2⟩ := runBatchLoop_preserves agent txIdOf time startTime timeoutMs emailId rest (i + 1) { st with store := releaseEmailProcessing (claimEmailForProcessing st.store emailId (time i)).2 emailId } hrest
  refine ⟨hstep, ⟨{ e with processing := false, processingStartedAt := none }, ?_, hproc, rfl, rfl⟩, ?_⟩
  · rw [hstep, p1]
    exact hrel
  · rw [hstep]
    apply p2
    intro k t hkt
    apply hnotx k t
    rw [← claim_transactions_eq st.store emailId (time i)]
    exact hkt

/-- A second message whose classification succeeds (C3 witness). -/
def secondEmail : EmailDoc :=
  { baseEmail with subject := "s2" }

/-- Agent stub that throws on subject "s" and succeeds otherwise (C3 witness). -/
def failingAgent : String → String → Except String AgentResult :=
  fun subj _ =>
    if subj = "s" then Except.error "classification failed" else Except.ok exampleAgentResult

/-- Store holding the failing message `m1` and a healthy message `m2` (C3 witness). -/
def c3Store : Firestore :=
  { emails := [("m1", baseEmail), ("m2", secondEmail)], transactions := [], jobs := [] }

def c3State : BatchState :=
  { store := c3Store, processedCount := 0, timedOut := false }

/-- Witness for C3: `m1` fails classification, the loop releases it and goes
on to `m2` from the released store. -/
theorem claim_C3_witness :
    runBatchLoop failingAgent (fun id => id ++ "-tx") (fun _ => 0) 0 1000
        [("m1", baseEmail), ("m2", secondEmail)] 0 c3State =
      runBatchLoop failingAgent (fun id => id ++ "-tx") (fun _ => 0) 0 1000
        [("m2", secondEmail)] 1
        { c3State with store :=
            releaseEmailProcessing (claimEmailForProcessing c3State.store "m1" 0).2 "m1" } ∧
    (∃ e1, findDoc (runBatchLoop failingAgent (fun id => id ++ "-tx") (fun _ => 0) 0 1000
        [("m1", baseEmail), ("m2", secondEmail)] 0 c3State).store.emails "m1" = some e1 ∧
      e1.processed = false ∧ e1.processing = false ∧ e1.processingStartedAt = none) ∧
    (∀ k t, findDoc (runBatchLoop failingAgent (fun id => id ++ "-tx") (fun _ => 0) 0 1000
        [("m1", baseEmail), ("m2", secondEmail)] 0 c3State).store.transactions k = some t →
      t.emailId ≠ "m1") :=
  claim_C3_per_message_failure_contained failingAgent (fun id => id ++ "-tx") (fun _ => 0)
    0 1000 "m1" baseEmail [("m2", secondEmail)] 0 c3State baseEmail "classification failed"
    (by decide) rfl rfl (by decide) rfl (by decide) (fun k t h => nomatch h)

/-! ## Internal-movement detection (queue.ts detectAndFlagInternalMovements)

The AI pairing facade (`detectInternalMovements`) is an external collaborator
and enters as a function from the submitted summaries to the schema-validated
response.  Firestore's chunked batched writes (flush every 450 mutations)
only split the commit; the resulting store is the one with all updates
applied, which is how the update pass is embedded. -/

structure TransactionSummary where
  id : String
  amount : Int
  type : String
  transaction_datetime : Option String
  emailBody : String
deriving Repr, DecidableEq

structure InternalMovementPair where
  outgoing_id : String
  incoming_id : String
  amount : Int
  datetime : String
  reason : String
deriving Repr, DecidableEq

structure InternalMovementDetectionResponse where
  internal_movement_ids : List String
  pairs : List InternalMovementPair
  notes : Option String
deriving Repr, DecidableEq

/-- The queried snapshot: `classification.should_track == true` and
`internal_movement_checked == false`. -/
def uncheckedTrackable (s : Firestore) : List (String × TransactionDoc) :=
  s.transactions.filter fun p =>
    p.2.classification.should_track && !p.2.internal_movement_checked

/-- One summary line; JS `||` falls back on `undefined`, `null`, `""` and `0`. -/
def mkSummary (txId : String) (t : TransactionDoc) (emailBody : String) : TransactionSummary :=
  { id := txId,
    amount := match t.classification.transaction with | some c => c.amount | none => 0,
    type := match t.classification.transaction with
      | some c => if c.type = "" then "unknown" else c.type
      | none => "unknown",
    transaction_datetime := match t.timeExtraction.transaction_datetime with
      | some d => if d = "" then none else some d
      | none => none,
    emailBody := emailBody }

/-- The summaries submitted to the pairing facade: snapshot entries whose
source email document exists (missing emails are skipped with `continue`). -/
def gatherSummaries (s : Firestore) : List TransactionSummary :=
  (uncheckedTrackable s).filterMap fun p =>
    match findDoc s.emails p.2.emailId with
    | none => none
    | some e => some (mkSummary p.1 p.2 e.body)

def detectAndFlagInternalMovements
    (facade : List TransactionSummary → InternalMovementDetectionResponse)
    (s : Firestore) : Nat × Firestore :=
  let snapshot := uncheckedTrackable s
  if snapshot.isEmpty then (0, s)
  else
    let transactions := gatherSummaries s
    if transactions.isEmpty then (0, s)
    else
      let result := facade transactions
      let snapIds := snapshot.map Prod.fst
      let s1 := { s with transactions := mapByKeys s.transactions snapIds fun tid t => { t with internal_movement := decide (tid ∈ result.internal_movement_ids), internal_movement_checked := true } }
      (result.internal_movement_ids.dedup.length, s1)

/-- A gathered transaction whose source email is missing (C6 counterexample). -/
def cexTransaction : TransactionDoc :=
  { emailId := "m-gone", emailSubject := "s",
    classification := { should_track := true, transaction := none },
    categorization := { category := "c", subcategory := "sc", confidence := "high" },
    timeExtraction := { transaction_datetime := none },
    internal_movement := false, internal_movement_checked := false, createdAt := 0 }

/-- Store where the only gathered transaction has no source email. -/
def cexC6Store : Firestore :=
  { emails := [], transactions := [("tx1", cexTransaction)], jobs := [] }

/-- Facade stub returning no pairs. -/
def nullFacade : List TransactionSummary → InternalMovementDetectionResponse :=
  fun _ => { internal_movement_ids := [], pairs := [], notes := none }

/-- C6 as stated is false: when every gathered transaction's source email is
missing, the summary list comes out empty and the pass returns early without
marking anything, so a gathered transaction stays
`internal_movement_checked = false` — it is not "still marked checked". -/
theorem claim_C6_counterexample :
    cexTransaction.classification.should_track = true ∧
    cexTransaction.internal_movement_checked = false ∧
    findDoc cexC6Store.emails cexTransaction.emailId = none ∧
    findDoc (detectAndFlagInternalMovements nullFacade cexC6Store).2.transactions "tx1" =
      some cexTransaction := by
  refine ⟨rfl, rfl, rfl, ?_⟩
  rfl

/-- C6 amended: provided at least one gathered transaction still has its
source email (the submitted summary list is nonempty), every transaction of
the gathered set ends with `internal_movement_checked = true` and
`internal_movement = true` exactly when its id is in the facade's matched-id
set; and a gathered transaction whose source email is missing is excluded
from the submitted summaries (but still marked checked, by the first part). -/
theorem claim_C6_pairing_closure
    (facade : List TransactionSummary → InternalMovementDetectionResponse) (s : Firestore)
    (hnd : (s.transactions.map Prod.fst).Nodup)
    (hsome : gatherSummaries s ≠ []) :
    ∀ p ∈ uncheckedTrackable s,
      (∃ t1, findDoc (detectAndFlagInternalMovements facade s).2.transactions p.1 = some t1 ∧
        t1.internal_movement_checked = true ∧
        (t1.internal_movement = true ↔
          p.1 ∈ (facade (gatherSummaries s)).internal_movement_ids)) ∧
      (findDoc s.emails p.2.emailId = none → ∀ q ∈ gatherSummaries s, q.id ≠ p.1) := by
  intro p hp
  have hmem : p ∈ s.transactions := List.mem_of_mem_filter hp
  have hfp : findDoc s.transactions p.1 = some p.2 := findDoc_of_mem_nodup _ p hnd hmem
  have hsnap : ¬((uncheckedTrackable s).isEmpty = true) := by
    have hne : uncheckedTrackable s ≠ [] := List.ne_nil_of_mem hp
    simp [List.isEmpty_iff, hne]
  have hsum : ¬((gatherSummaries s).isEmpty = true) := by
    simp [List.isEmpty_iff, hsome]
  have hdet : (detectAndFlagInternalMovements facade s).2 =
      { s with transactions := mapByKeys s.transactions ((uncheckedTrackable s).map Prod.fst) fun tid t => { t with internal_movement := decide (tid ∈ (facade (gatherSummaries s)).internal_movement_ids), internal_movement_checked := true } } := by
    simp only [detectAndFlagInternalMovements]
    rw [if_neg hsnap, if_neg hsum]
  have hkey : p.1 ∈ (uncheckedTrackable s).map Prod.fst :=
    List.mem_map.mpr ⟨p, hp, rfl⟩
  constructor
  · have hfound : findDoc (detectAndFlagInternalMovements facade s).2.transactions p.1 =
        some { p.2 with internal_movement := decide (p.1 ∈ (facade (gatherSummaries s)).internal_movement_ids), internal_movement_checked := true } := by
      rw [hdet]
      show findDoc (mapByKeys s.transactions ((uncheckedTrackable s).map Prod.fst) fun tid t => { t with internal_movement := decide (tid ∈ (facade (gatherSummaries s)).internal_movement_ids), internal_movement_checked := true }) p.1 = some { p.2 with internal_movement := decide (p.1 ∈ (facade (gatherSummaries s)).internal_movement_ids), internal_movement_checked := true }
      rw [findDoc_mapByKeys_mem _ _ _ _ hkey, hfp]
      rfl
    exact ⟨_, hfound, rfl, decide_eq_true_iff⟩
  · intro hmiss q hq hqid
    obtain ⟨a, ha, hmatch⟩ := List.mem_filterMap.mp hq
    have hamem : a ∈ s.transactions := List.mem_of_mem_filter ha
    cases hfe : findDoc s.emails a.2.emailId with
    | none =>
      rw [hfe] at hmatch
      cases hmatch
    | some e1 =>
      rw [hfe] at hmatch
      injection hmatch with hqeq
      have hida : q.id = a.1 := by
        rw [← hqeq]
        rfl
      have haa : a.1 = p.1 := by rw [← hida, hqid]
      have hfa : findDoc s.transactions a.1 = some a.2 := findDoc_of_mem_nodup _ a hnd hamem
      rw [haa, hfp] at hfa
      injection hfa with h2
      rw [h2] at hmiss
      rw [hfe] at hmiss
      cases hmiss

/-- A tracked, unchecked transaction whose source email exists (C6 witness). -/
def c6Tx1 : TransactionDoc :=
  { emailId := "m1", emailSubject := "s",
    classification := { should_track := true, transaction := some { type := "outgoing", amount := 50000, description := "t", date := "d", method := "llave" } },
    categorization := { category := "c", subcategory := "sc", confidence := "high" },
    timeExtraction := { transaction_datetime := some "2024-01-01T00:00:00-05:00" },
    internal_movement := false, internal_movement_checked := false, createdAt := 0 }

/-- Like `c6Tx1` but the source email is missing (C6 witness). -/
def c6Tx2 : TransactionDoc :=
  { c6Tx1 with emailId := "m-gone" }

def c6Store : Firestore :=
  { emails := [("m1", baseEmail)],
    transactions := [("tx1", c6Tx1), ("tx2", c6Tx2)], jobs := [] }

/-- Facade stub matching exactly `tx1` (C6 witness). -/
def c6Facade : List TransactionSummary → InternalMovementDetectionResponse :=
  fun _ => { internal_movement_ids := ["tx1"], pairs := [], notes := none }

/-- Witness for the amended C6 on a concrete store: the gathered transaction
whose source email is missing is nevertheless marked checked (and unmatched). -/
theorem claim_C6_witness :
    ∃ t1, findDoc (detectAndFlagInternalMovements c6Facade c6Store).2.transactions "tx2" =
        some t1 ∧
      t1.internal_movement_checked = true ∧
      (t1.internal_movement = true ↔
        ("tx2" : String) ∈ (c6Facade (gatherSummaries c6Store)).internal_movement_ids) :=
  (claim_C6_pairing_closure c6Facade c6Store (by decide) (by decide)
    ("tx2", c6Tx2) (by decide)).1

/-! ## The job processor (queue.ts runJobProcessor / processEmailQueue)

`runJobProcessor` drives the same per-message loop while updating the job
document after each step.  The model records the successive states of the job
document (`trace`, earliest first) next to the evolving store.  `queryError`
embeds the initial unprocessed-messages query throwing (a Firestore index
error and any other throw both end in the same `failed` update, via the
early return or the outer catch); `detectQueryError` embeds the
internal-movement detection's own trackable-transactions query throwing an
index error, which detection catches and surfaces as its `indexError` return
field; `endTime` stands for the server timestamp of the final update.

firebase-admin validates `update` payloads client-side: a payload holding an
`undefined` value is rejected with a serializer error before any write unless
`ignoreUndefinedProperties` is enabled, which this repository never sets (no
`firestore().settings(...)` call anywhere; email.ts even works around the
restriction by only conditionally including `processingStartedAt`).  Both
`completed` updates of `runJobProcessor` pass `error: indexError`
(queue.ts:1143-1150 and 1206-1214), a value that is `undefined` on every path
where detection did not index-error — in particular the happy path, the
empty-batch path and the time-budget path, where detection is skipped
entirely.  There the update throws, control reaches the outer catch
(queue.ts:1215-1221), and the job is stamped `failed` with the serializer's
message. -/

/-- The job document created by `processEmailQueue` before the background run. -/
def mkProcessJob (validLimit : Int) (now : Millis) : ProcessJob :=
  { status := ProcessJobStatus.pending, limit := validLimit, processed := 0, total := 0,
    remaining := 0, currentEmail := none, internalMovementsDetected := 0, error := none,
    createdAt := now, startedAt := none, completedAt := none }

/-- The live `processed == false` count query. -/
def countUnprocessed (s : Firestore) : Nat :=
  (s.emails.filter fun p => !p.2.processed).length

structure JobLoopState where
  store : Firestore
  job : ProcessJob
  trace : List ProcessJob
  processedCount : Nat
  timedOut : Bool
deriving Repr, DecidableEq

/-- `jobRef.update({ status: "running", startedAt: serverTimestamp() })`. -/
def jobRunning (j : ProcessJob) (startTime : Millis) : ProcessJob :=
  { j with status := ProcessJobStatus.running, startedAt := some startTime }

/-- `jobRef.update({ total })`. -/
def jobWithTotal (j : ProcessJob) (n : Nat) : ProcessJob :=
  { j with total := n }

/-- `jobRef.update({ status: "failed", error, completedAt })`. -/
def jobFailed (j : ProcessJob) (msg : String) (endTime : Millis) : ProcessJob :=
  { j with status := ProcessJobStatus.failed, error := some msg, completedAt := some endTime }

/-- `jobRef.update({ currentEmail: doc.id })`. -/
def jobCurrent (j : ProcessJob) (emailId : String) : ProcessJob :=
  { j with currentEmail := some emailId }

/-- `jobRef.update({ processed: processedCount })`. -/
def jobProgress (j : ProcessJob) (n : Nat) : ProcessJob :=
  { j with processed := n }

/-- `getErrorMessage` of the firebase-admin serializer rejection thrown when
an `update` payload holds an `undefined` value and `ignoreUndefinedProperties`
is not enabled. -/
def UNDEFINED_FIELD_ERROR : String :=
  "Cannot use \"undefined\" as a Firestore value (found in field \"error\")"

/-- The document state written by the final `jobRef.update({ status:
"completed", processed, remaining, internalMovementsDetected, error:
indexError, currentEmail: FieldValue.delete(), completedAt })`
(queue.ts:1206-1214) when the payload is accepted, i.e. when `indexError` is
an actual string. -/
def jobCompleted (j : ProcessJob) (processed remaining moved : Nat)
    (indexError : Option String) (endTime : Millis) : ProcessJob :=
  { j with
    status := ProcessJobStatus.completed, processed := processed,
    remaining := remaining, internalMovementsDetected := moved,
    error := indexError, currentEmail := none, completedAt := some endTime }

/-- The empty-batch `jobRef.update({ status: "completed", processed: 0,
remaining: 0, internalMovementsDetected, error, completedAt })`
(queue.ts:1143-1150) when the payload is accepted; it does not touch
`currentEmail`. -/
def jobCompletedEmpty (j : ProcessJob) (moved : Nat)
    (indexError : Option String) (endTime : Millis) : ProcessJob :=
  { j with
    status := ProcessJobStatus.completed, processed := 0, remaining := 0,
    internalMovementsDetected := moved, error := indexError,
    completedAt := some endTime }

/-- What `detectAndFlagInternalMovements` hands back to its caller: `count`
plus the optional `indexError` message, next to the updated store.  The
pairing pass is `detectAndFlagInternalMovements`; when detection's own
trackable-transactions query throws a Firestore index error (the
`detectQueryError` argument), detection catches it and returns
`{ count: 0, indexError }` without writing. -/
structure DetectCallResult where
  count : Nat
  indexError : Option String
  store : Firestore
deriving Repr, DecidableEq

def detectWithIndexError
    (facade : List TransactionSummary → InternalMovementDetectionResponse)
    (detectQueryError : Option String) (s : Firestore) : DetectCallResult :=
  match detectQueryError with
  | some msg => ⟨0, some msg, s⟩
  | none =>
    let r := detectAndFlagInternalMovements facade s
    ⟨r.1, none, r.2⟩

def runJobLoop (agent : String → String → Except String AgentResult)
    (txIdOf : String → String) (time : Nat → Millis) (startTime timeoutMs : Millis) :
    List (String × EmailDoc) → Nat → JobLoopState → JobLoopState
  | [], _, st => st
  | (emailId, emailData) :: rest, i, st =>
    if time i - startTime ≥ timeoutMs then
      { st with timedOut := true }
    else
      let c := claimEmailForProcessing st.store emailId (time i)
      if c.1 = false then
        runJobLoop agent txIdOf time startTime timeoutMs rest (i + 1) { st with store := c.2 }
      else
        match agent emailData.subject emailData.body with
        | .error _ =>
          runJobLoop agent txIdOf time startTime timeoutMs rest (i + 1)
            { store := releaseEmailProcessing c.2 emailId, job := jobCurrent st.job emailId,
              trace := st.trace ++ [jobCurrent st.job emailId],
              processedCount := st.processedCount, timedOut := st.timedOut }
        | .ok r =>
          runJobLoop agent txIdOf time startTime timeoutMs rest (i + 1)
            { store := processEmailDocument c.2 emailId emailData (txIdOf emailId) r (time i),
              job := jobProgress (jobCurrent st.job emailId) (st.processedCount + 1),
              trace := st.trace ++ [jobCurrent st.job emailId,
                jobProgress (jobCurrent st.job emailId) (st.processedCount + 1)],
              processedCount := st.processedCount + 1, timedOut := st.timedOut }

structure JobRunResult where
  store : Firestore
  trace : List ProcessJob
  timedOut : Bool
deriving Repr, DecidableEq

/-- The `processed == false` query with its limit. -/
def unprocessedDocs (s : Firestore) (limit : Nat) : List (String × EmailDoc) :=
  (s.emails.filter fun p => !p.2.processed).take limit

/-- queue.ts:1103-1222.  On every path reaching a `completed` update whose
`error` value is `undefined` (detection skipped on timeout, or detection
returned no `indexError`), the update is rejected by the serializer before
any write, the outer catch runs, and the terminal update is
`jobFailed _ UNDEFINED_FIELD_ERROR` instead. -/
def runJobProcessor (facade : List TransactionSummary → InternalMovementDetectionResponse)
    (agent : String → String → Except String AgentResult) (txIdOf : String → String)
    (time : Nat → Millis) (startTime timeoutMs endTime : Millis)
    (queryError detectQueryError : Option String) (limit : Nat)
    (s0 : Firestore) (job0 : ProcessJob) : JobRunResult :=
  let j1 := jobRunning job0 startTime
  match queryError with
  | some msg =>
    ⟨s0, [job0, j1, jobFailed j1 msg endTime], false⟩
  | none =>
    let docs := unprocessedDocs s0 limit
    let j2 := jobWithTotal j1 docs.length
    if docs.isEmpty then
      let r := detectWithIndexError facade detectQueryError s0
      match r.indexError with
      | some msg =>
        ⟨r.store, [job0, j1, j2, jobCompletedEmpty j2 r.count (some msg) endTime], false⟩
      | none =>
        ⟨r.store, [job0, j1, j2, jobFailed j2 UNDEFINED_FIELD_ERROR endTime], false⟩
    else
      let st := runJobLoop agent txIdOf time startTime timeoutMs docs 0 ⟨s0, j2, [job0, j1, j2], 0, false⟩
      let r :=
        if st.timedOut then (⟨0, none, st.store⟩ : DetectCallResult)
        else detectWithIndexError facade detectQueryError st.store
      match r.indexError with
      | some msg =>
        ⟨r.store,
          st.trace ++
            [jobCompleted st.job st.processedCount (countUnprocessed st.store) r.count
              (some msg) endTime],
          st.timedOut⟩
      | none =>
        ⟨r.store, st.trace ++ [jobFailed st.job UNDEFINED_FIELD_ERROR endTime], st.timedOut⟩

/-- The failing input for C5: a one-message run over `oneEmailStore` in which
the unprocessed-messages query succeeds, the agent pipeline succeeds, the
time budget is never hit and the internal-movement detection raises no index
error. -/
def c5Run : JobRunResult :=
  runJobProcessor nullFacade (fun _ _ => Except.ok exampleAgentResult)
    (fun id => id ++ "-tx") (fun _ => 0) 0 1000 5 none none 10 oneEmailStore
    (mkProcessJob 10 0)

/-- The same run with the clock past the time budget, so the loop stops on
the budget before claiming anything. -/
def c5TimedOutRun : JobRunResult :=
  runJobProcessor nullFacade (fun _ _ => Except.ok exampleAgentResult)
    (fun id => id ++ "-tx") (fun _ => 2000) 0 1000 5 none none 10 oneEmailStore
    (mkProcessJob 10 0)

/-- C5: code bug.  The claim (with the spec) says a run whose batch loop
completes ends `completed`, also when stopped by the time budget, with
`failed` reserved for exceptions escaping the loop.  On the failing input —
query succeeds, every message processed, no timeout, no detection index
error — the final update passes `error: undefined`, firebase-admin rejects
the payload, and the outer catch stamps `failed` with the serializer's
message: the status trajectory is pending, running, running, running,
running, failed, and no `completed` state ever appears.  A budget-stopped
run (detection skipped, `indexError` still `undefined`) ends `failed` the
same way. -/
theorem claim_C5_completed_update_rejected :
    c5Run.timedOut = false ∧
    countUnprocessed c5Run.store = 0 ∧
    (∀ j ∈ c5Run.trace, j.status ≠ ProcessJobStatus.completed) ∧
    c5Run.trace.map ProcessJob.status =
      [ProcessJobStatus.pending, ProcessJobStatus.running, ProcessJobStatus.running,
        ProcessJobStatus.running, ProcessJobStatus.running, ProcessJobStatus.failed] ∧
    (c5Run.trace.getLast?).map ProcessJob.error = some (some UNDEFINED_FIELD_ERROR) ∧
    c5TimedOutRun.timedOut = true ∧
    (c5TimedOutRun.trace.getLast?).map ProcessJob.status = some ProcessJobStatus.failed := by
  decide

/-! ## Sync orchestrator (sync.ts)

`getLastSyncTime` reads the singleton sync-status document and returns its
`triggeredAt` timestamp (stamped at the START of every sync attempt,
successful or not); `calculateHoursToFetch` computes the lookback window.
`startOfMonthMs` stands for `new Date(now.getFullYear(), now.getMonth(), 1)`
(the civil-calendar computation of the JS Date is not re-modelled);
`Math.ceil` of the exact ratio is embedded as integer ceiling division. -/

inductive SyncStatus where
  | idle
  | fetching
  | processing
  | completed
  | failed
deriving Repr, DecidableEq

structure SyncStatusDocument where
  status : SyncStatus
  triggeredAt : Option Millis
  completedAt : Option Millis
  hoursToFetch : Int
  totalEmailsFetched : Int
  newEmails : Int
  existingEmails : Int
  emailsQueued : Int
  emailsProcessed : Int
  emailsRemaining : Int
  error : Option String
deriving Repr, DecidableEq

def getLastSyncTime (syncDoc : Option SyncStatusDocument) : Option Millis :=
  match syncDoc with
  | none => none
  | some d =>
    match d.triggeredAt with
    | none => none
    | some t => some t

/-- `Math.ceil(a / b)` for integers (b > 0), via floor division. -/
def jsCeilDiv (a b : Int) : Int :=
  -((-a) / b)

def calculateHoursToFetch (nowMs startOfMonthMs : Millis)
    (lastSyncTime : Option Millis) : Int :=
  match lastSyncTime with
  | none => jsCeilDiv (nowMs - startOfMonthMs) (1000 * 60 * 60) + EXTRA_HOURS_BUFFER
  | some t => jsCeilDiv (nowMs - t) (1000 * 60 * 60) + EXTRA_HOURS_BUFFER

/-- `jsCeilDiv a (1000*60*60)` is the least integer k with `a ≤ k` hours. -/
theorem jsCeilDiv_spec (a : Int) :
    a ≤ jsCeilDiv a (1000 * 60 * 60) * (1000 * 60 * 60) ∧
    (jsCeilDiv a (1000 * 60 * 60) - 1) * (1000 * 60 * 60) < a := by
  have e3 : (1000 * 60 * 60 : Int) = 3600000 := by norm_num
  unfold jsCeilDiv
  rw [e3]
  omega

/-- C7 counterexample: the claim as stated ties the month-start branch to the
absence of a prior *successful* sync.  But `triggeredAt` is stamped on every
attempt and survives a failure, so after a failed (never-completed) sync the
code computes hours-since-last-attempt (106 here), not hours-since-start-of-
month (206). -/
def failedSyncDoc : SyncStatusDocument :=
  { status := SyncStatus.failed, triggeredAt := some 360000000, completedAt := none,
    hoursToFetch := 0, totalEmailsFetched := 0, newEmails := 0, existingEmails := 0,
    emailsQueued := 0, emailsProcessed := 0, emailsRemaining := 0,
    error := some "sync failed" }

theorem claim_C7_counterexample :
    failedSyncDoc.status = SyncStatus.failed ∧
    failedSyncDoc.completedAt = none ∧
    calculateHoursToFetch 720000000 0 (getLastSyncTime (some failedSyncDoc)) = 106 ∧
    calculateHoursToFetch 720000000 0 none = 206 := by
  refine ⟨rfl, rfl, ?_, ?_⟩ <;> decide

/-- C7 amended: for every sync trigger, the computed window equals the
rounded-up number of hours since the reference point plus the 6-hour buffer,
where the reference point is the start of the current month when no prior
sync attempt stamped `triggeredAt`, and the last attempt's `triggeredAt`
otherwise (successful or not). -/
theorem claim_C7_lookback_window (nowMs startOfMonthMs : Int)
    (syncDoc : Option SyncStatusDocument) :
    (getLastSyncTime syncDoc = none →
      nowMs - startOfMonthMs ≤
        (calculateHoursToFetch nowMs startOfMonthMs (getLastSyncTime syncDoc) -
          EXTRA_HOURS_BUFFER) * (1000 * 60 * 60) ∧
      (calculateHoursToFetch nowMs startOfMonthMs (getLastSyncTime syncDoc) -
          EXTRA_HOURS_BUFFER - 1) * (1000 * 60 * 60) < nowMs - startOfMonthMs) ∧
    (∀ t : Int, getLastSyncTime syncDoc = some t →
      nowMs - t ≤
        (calculateHoursToFetch nowMs startOfMonthMs (getLastSyncTime syncDoc) -
          EXTRA_HOURS_BUFFER) * (1000 * 60 * 60) ∧
      (calculateHoursToFetch nowMs startOfMonthMs (getLastSyncTime syncDoc) -
          EXTRA_HOURS_BUFFER - 1) * (1000 * 60 * 60) < nowMs - t) := by
  constructor
  · intro h
    rw [h]
    simp only [calculateHoursToFetch, EXTRA_HOURS_BUFFER]
    have hspec := jsCeilDiv_spec (nowMs - startOfMonthMs)
    omega
  · intro t h
    rw [h]
    simp only [calculateHoursToFetch, EXTRA_HOURS_BUFFER]
    have hspec := jsCeilDiv_spec (nowMs - t)
    omega

/-- Witness for the amended C7 at a concrete first-ever sync. -/
theorem claim_C7_witness :
    (720000000 : Int) - 0 ≤
      (calculateHoursToFetch 720000000 0 (getLastSyncTime none) -
        EXTRA_HOURS_BUFFER) * (1000 * 60 * 60) ∧
    (calculateHoursToFetch 720000000 0 (getLastSyncTime none) -
        EXTRA_HOURS_BUFFER - 1) * (1000 * 60 * 60) < (720000000 : Int) - 0 :=
  (claim_C7_lookback_window 720000000 0 none).1 rfl

/-! ## getProcessStatus (job status endpoint, jobId-fallback variant)

The endpoint resolves a missing `jobId` query parameter by querying the most
recently created `pending`/`running` job, then falling back to the most
recently created job of any status; an explicit `jobId` is fetched directly.
`orderBy("createdAt", "desc").limit(1)` is embedded as a fold picking the
entry with the largest `createdAt` (first seen wins ties). -/

inductive StatusLookupResult where
  | ok (jobId : String) (job : ProcessJob)
  | notFound
deriving Repr, DecidableEq

/-- `where("status", "in", ["pending", "running"])`. -/
def isActiveStatus (s : ProcessJobStatus) : Bool :=
  match s with
  | ProcessJobStatus.pending => true
  | ProcessJobStatus.running => true
  | _ => false

def pickMax (acc : Option (String × ProcessJob)) (q : String × ProcessJob) :
    Option (String × ProcessJob) :=
  match acc with
  | none => some q
  | some a => if q.2.createdAt > a.2.createdAt then some q else some a

def latestJob (jobs : List (String × ProcessJob)) (p : ProcessJob → Bool) :
    Option (String × ProcessJob) :=
  (jobs.filter fun q => p q.2).foldl pickMax none

def getProcessStatus (jobs : List (String × ProcessJob)) (jobId : Option String) :
    StatusLookupResult :=
  match jobId with
  | none =>
    match latestJob jobs (fun j => isActiveStatus j.status) with
    | some q => StatusLookupResult.ok q.1 q.2
    | none =>
      match latestJob jobs (fun _ => true) with
      | some q => StatusLookupResult.ok q.1 q.2
      | none => StatusLookupResult.notFound
  | some id =>
    match findDoc jobs id with
    | some j => StatusLookupResult.ok id j
    | none => StatusLookupResult.notFound

theorem pickMax_none (x : String × ProcessJob) : pickMax none x = some x := rfl

theorem pickMax_some (a x : String × ProcessJob) :
    pickMax (some a) x =
      if x.2.createdAt > a.2.createdAt then some x else some a := rfl

theorem pickMax_spec (l : List (String × ProcessJob)) :
    ∀ (acc : Option (String × ProcessJob)),
      (l.foldl pickMax acc = none → acc = none ∧ l = []) ∧
      (∀ q, l.foldl pickMax acc = some q →
        (acc = some q ∨ q ∈ l) ∧
        (∀ a, acc = some a → a.2.createdAt ≤ q.2.createdAt) ∧
        (∀ r ∈ l, r.2.createdAt ≤ q.2.createdAt)) := by
  induction l with
  | nil =>
    intro acc
    constructor
    · intro h
      exact ⟨h, rfl⟩
    · intro q hq
      refine ⟨Or.inl hq, ?_, ?_⟩
      · intro a ha
        rw [ha] at hq
        injection hq with he
        rw [he]
      · intro r hr
        cases hr
  | cons x xs ih =>
    intro acc
    constructor
    · intro hnone
      obtain ⟨h1, _⟩ := (ih (pickMax acc x)).1 hnone
      cases acc with
      | none => cases h1
      | some a =>
        rw [pickMax_some] at h1
        by_cases hgt : x.2.createdAt > a.2.createdAt
        · rw [if_pos hgt] at h1
          cases h1
        · rw [if_neg hgt] at h1
          cases h1
    · intro q hq
      obtain ⟨hmem, hacc, hall⟩ := (ih (pickMax acc x)).2 q hq
      have hxle : x.2.createdAt ≤ q.2.createdAt := by
        cases acc with
        | none => exact hacc x rfl
        | some a =>
          by_cases hgt : x.2.createdAt > a.2.createdAt
          · exact hacc x (by rw [pickMax_some, if_pos hgt])
          · have haq : a.2.createdAt ≤ q.2.createdAt :=
              hacc a (by rw [pickMax_some, if_neg hgt])
            exact le_trans (not_lt.mp hgt) haq
      refine ⟨?_, ?_, ?_⟩
      · rcases hmem with h | h
        · cases acc with
          | none =>
            have hx : some x = some q := h
            injection hx with he
            exact Or.inr (he ▸ List.mem_cons_self _ _)
          | some a =>
            rw [pickMax_some] at h
            by_cases hgt : x.2.createdAt > a.2.createdAt
            · rw [if_pos hgt] at h
              injection h with he
              exact Or.inr (he ▸ List.mem_cons_self _ _)
            · rw [if_neg hgt] at h
              injection h with he
              exact Or.inl (by rw [he])
        · exact Or.inr (List.mem_cons_of_mem _ h)
      · intro a ha
        subst ha
        by_cases hgt : x.2.createdAt > a.2.createdAt
        · have hxq := hacc x (by rw [pickMax_some, if_pos hgt])
          exact le_trans (le_of_lt hgt) hxq
        · exact hacc a (by rw [pickMax_some, if_neg hgt])
      · intro r hr
        rcases List.mem_cons.mp hr with h | h
        · rw [h]
          exact hxle
        · exact hall r h

theorem filter_true_eq {α : Type} (l : List α) : (l.filter fun _ => true) = l := by
  induction l with
  | nil => rfl
  | cons x xs ih => simp [List.filter_cons, ih]

/-- C9: status-query resolution.  An explicit job id returns exactly that job
or not-found.  With the id omitted, the endpoint returns a pending/running
job with maximal `createdAt` among the pending/running ones when one exists;
otherwise it falls back to a job with maximal `createdAt` among all jobs;
and reports not-found only when there are no jobs at all. -/
theorem claim_C9_status_resolution (jobs : List (String × ProcessJob)) :
    (∀ id j, findDoc jobs id = some j →
      getProcessStatus jobs (some id) = StatusLookupResult.ok id j) ∧
    (∀ id, findDoc jobs id = none →
      getProcessStatus jobs (some id) = StatusLookupResult.notFound) ∧
    ((∃ q ∈ jobs, isActiveStatus q.2.status = true) →
      ∃ q, getProcessStatus jobs none = StatusLookupResult.ok q.1 q.2 ∧ q ∈ jobs ∧
        isActiveStatus q.2.status = true ∧
        ∀ r ∈ jobs, isActiveStatus r.2.status = true →
          r.2.createdAt ≤ q.2.createdAt) ∧
    ((∀ q ∈ jobs, isActiveStatus q.2.status = false) → jobs ≠ [] →
      ∃ q, getProcessStatus jobs none = StatusLookupResult.ok q.1 q.2 ∧ q ∈ jobs ∧
        ∀ r ∈ jobs, r.2.createdAt ≤ q.2.createdAt) ∧
    (jobs = [] → getProcessStatus jobs none = StatusLookupResult.notFound) := by
  refine ⟨?_, ?_, ?_, ?_, ?_⟩
  · intro id j h
    simp [getProcessStatus, h]
  · intro id h
    simp [getProcessStatus, h]
  · rintro ⟨q0, hq0, hact⟩
    cases hlj : latestJob jobs (fun j => isActiveStatus j.status) with
    | none =>
      exfalso
      obtain ⟨_, hnil⟩ := (pickMax_spec (jobs.filter fun q => isActiveStatus q.2.status) none).1 hlj
      have hq0f : q0 ∈ jobs.filter fun q => isActiveStatus q.2.status :=
        List.mem_filter.mpr ⟨hq0, hact⟩
      rw [hnil] at hq0f
      cases hq0f
    | some q =>
      obtain ⟨hmem, _, hmax⟩ :=
        (pickMax_spec (jobs.filter fun q => isActiveStatus q.2.status) none).2 q hlj
      rcases hmem with h | h
      · cases h
      · refine ⟨q, ?_, (List.mem_filter.mp h).1, (List.mem_filter.mp h).2, ?_⟩
        · simp [getProcessStatus, hlj]
        · intro r hr hract
          exact hmax r (List.mem_filter.mpr ⟨hr, hract⟩)
  · intro hinact hne
    cases hlj : latestJob jobs (fun j => isActiveStatus j.status) with
    | some q =>
      exfalso
      obtain ⟨hmem, _, _⟩ :=
        (pickMax_spec (jobs.filter fun q => isActiveStatus q.2.status) none).2 q hlj
      rcases hmem with h | h
      · cases h
      · have hq := List.mem_filter.mp h
        rw [hinact q hq.1] at hq
        cases hq.2
    | none =>
      cases hlj2 : latestJob jobs (fun _ => true) with
      | none =>
        exfalso
        obtain ⟨_, hnil⟩ := (pickMax_spec (jobs.filter fun _ => true) none).1 hlj2
        rw [filter_true_eq] at hnil
        exact hne hnil
      | some q =>
        obtain ⟨hmem, _, hmax⟩ := (pickMax_spec (jobs.filter fun _ => true) none).2 q hlj2
        rcases hmem with h | h
        · cases h
        · refine ⟨q, ?_, ?_, ?_⟩
          · simp [getProcessStatus, hlj, hlj2]
          · rw [filter_true_eq] at h
            exact h
          · intro r hr
            apply hmax
            rw [filter_true_eq]
            exact hr
  · intro h
    subst h
    rfl

def c9Job1 : ProcessJob := mkProcessJob 10 1

def c9Job2 : ProcessJob := { mkProcessJob 10 5 with status := ProcessJobStatus.running }

def c9Job3 : ProcessJob := { mkProcessJob 10 9 with status := ProcessJobStatus.completed }

def c9Jobs : List (String × ProcessJob) := [("j1", c9Job1), ("j2", c9Job2), ("j3", c9Job3)]

/-- Witness for C9: with the id omitted and a running job present (even though
a completed job is newer), the running/pending jobs win. -/
theorem claim_C9_witness :
    ∃ q, getProcessStatus c9Jobs none = StatusLookupResult.ok q.1 q.2 ∧ q ∈ c9Jobs ∧
      isActiveStatus q.2.status = true ∧
      ∀ r ∈ c9Jobs, isActiveStatus r.2.status = true → r.2.createdAt ≤ q.2.createdAt :=
  (claim_C9_status_resolution c9Jobs).2.2.1 ⟨("j2", c9Job2), by decide, by decide⟩

/-! ## processEmailQueue limit parsing (queue.ts)

`parseInt(limitParam, 10)` is embedded over the string's characters: skip
leading whitespace, read an optional sign, then the maximal run of decimal
digits; no digits is `NaN` (`none`).  A missing (or non-string) query
parameter leaves `limit` at `DEFAULT_BATCH_SIZE`. -/

def jsParseInt10 (s : String) : Option Int :=
  let cs := s.data.dropWhile fun c => c == ' ' || c == '\t' || c == '\n' || c == '\r'
  let signed : Int × List Char :=
    match cs with
    | '-' :: rest => (-1, rest)
    | '+' :: rest => (1, rest)
    | _ => (1, cs)
  let digits := signed.2.takeWhile Char.isDigit
  if digits.isEmpty then none
  else some (signed.1 *
    Int.ofNat (digits.foldl (fun acc c => acc * 10 + (c.toNat - '0'.toNat)) 0))

def effectiveLimit (limitParam : Option String) : Int :=
  let limit : Option Int :=
    match limitParam with
    | some s => jsParseInt10 s
    | none => some DEFAULT_BATCH_SIZE
  match limit with
  | none => DEFAULT_BATCH_SIZE
  | some n => if n < 1 then DEFAULT_BATCH_SIZE else min n 100

/-- C10: the effective batch limit.  A parsed value of at least 1 is used,
capped at 100; a missing parameter, an unparsable (`NaN`) value or a value
below 1 falls back to the default 10; and the result always lies in
`[1, 100]`. -/
theorem claim_C10_effective_limit (p : Option String) :
    (∀ s n, p = some s → jsParseInt10 s = some n → 1 ≤ n →
      effectiveLimit p = min n 100) ∧
    (∀ s n, p = some s → jsParseInt10 s = some n → n < 1 →
      effectiveLimit p = 10) ∧
    (∀ s, p = some s → jsParseInt10 s = none → effectiveLimit p = 10) ∧
    (p = none → effectiveLimit p = 10) ∧
    1 ≤ effectiveLimit p ∧ effectiveLimit p ≤ 100 := by
  refine ⟨?_, ?_, ?_, ?_, ?_⟩
  · intro s n hp hn h1
    subst hp
    simp only [effectiveLimit, hn]
    rw [if_neg (by omega)]
  · intro s n hp hn h1
    subst hp
    simp only [effectiveLimit, hn]
    rw [if_pos h1]
    rfl
  · intro s hp hn
    subst hp
    simp only [effectiveLimit, hn]
    rfl
  · intro hp
    subst hp
    rfl
  · cases p with
    | none =>
      constructor <;> decide
    | some s =>
      cases hn : jsParseInt10 s with
      | none =>
        simp only [effectiveLimit, hn]
        constructor <;> decide
      | some n =>
        simp only [effectiveLimit, hn]
        by_cases h1 : n < 1
        · rw [if_pos h1]
          constructor <;> decide
        · rw [if_neg h1]
          constructor
          · have : 1 ≤ n := by omega
            exact le_min this (by omega)
          · exact min_le_right _ _

/-- Witness for C10: `?limit=250` parses to 250 and is capped via `min`. -/
theorem claim_C10_witness :
    effectiveLimit (some "250") = min 250 100 :=
  (claim_C10_effective_limit (some "250")).1 "250" 250 rfl (by decide) (by decide)

end OneFinance
